import Mathlib

/-!
Verification of the rust_json repository (src/tokenizer.rs, src/parser.rs).

The embedding works over `List Char` (the sequence produced by Rust's
`str::chars()`).  The Rust code mixes character positions (`chars().nth`)
with byte positions (slicing, `str::len`); these coincide on ASCII text,
and every concrete input appearing below is ASCII.  Offsets are modelled
as character offsets throughout.

`src/main.rs` is an earlier self-contained revision of the same program;
the library pair `src/tokenizer.rs` + `src/parser.rs` is the current
revision and is the one embedded here.  (`parser.rs` refers to the
`Number` token constructor by its pre-rename name `Integer`; the
constructor is one and the same and is called `number` below.)
-/

namespace RustJson

/-- Token kinds, from `enum TokenType` in src/tokenizer.rs.
`parser.rs` still calls the `number` constructor `Integer`. -/
inductive TokenType where
  | arrayEnd
  | arrayStart
  | colon
  | comma
  | falseLit
  | number
  | nullLit
  | objectEnd
  | objectStart
  | string
  | trueLit
  | whitespace
deriving DecidableEq, Repr

/-- Struct `TokenizeError` in src/tokenizer.rs: a char offset and a message. -/
structure TokenizeError where
  offset : Nat
  message : String
deriving DecidableEq, Repr

/-- Struct `Token` in src/tokenizer.rs: kind, verbatim source substring, start offset. -/
structure Token where
  type_ : TokenType
  value : List Char
  offset : Nat
deriving DecidableEq, Repr

/-- The `{` character, kept out of literals. -/
def lbrace : Char := Char.ofNat 123

/-- The `}` character, kept out of literals. -/
def rbrace : Char := Char.ofNat 125

/-- Rust `char::is_ascii_whitespace`: space, tab, newline, form feed, carriage return. -/
def isAsciiWhitespace (c : Char) : Bool :=
  c = ' ' || c = '\t' || c = '\n' || c = Char.ofNat 12 || c = '\r'

/-- Rust `Iterator::position`: index of the first element satisfying `p`. -/
def position (p : Char → Bool) : List Char → Option Nat
  | [] => none
  | c :: rest => if p c then some 0 else (position p rest).map (· + 1)

/-- Integer part of the number regex `0|[1-9]\d*` matched at the head of `cs`:
the matched characters and the remaining input.  Alternation is
first-match (`0` wins at a leading zero), `\d*` is greedy. -/
def matchIntPart : List Char → Option (List Char × List Char)
  | [] => none
  | c :: rest =>
    if c = '0' then some (['0'], rest)
    else if c.isDigit then
      some (c :: rest.takeWhile (·.isDigit), rest.drop (rest.takeWhile (·.isDigit)).length)
    else none

/-- Optional fraction `(?:\.\d+)?` matched greedily at the head of `cs`;
matches the empty string when `.` is absent or not followed by a digit. -/
def matchFrac (cs : List Char) : List Char × List Char :=
  match cs with
  | '.' :: rest =>
    let ds := rest.takeWhile (·.isDigit)
    if ds.isEmpty then ([], cs) else ('.' :: ds, rest.drop ds.length)
  | _ => ([], cs)

/-- Optional exponent `(?:[eE][+-]?\d+)?` matched greedily at the head of `cs`;
backtracks to the empty match when no digits follow. -/
def matchExp (cs : List Char) : List Char × List Char :=
  match cs with
  | c :: rest =>
    if c = 'e' ∨ c = 'E' then
      match rest with
      | s :: rest2 =>
        if s = '+' ∨ s = '-' then
          let ds := rest2.takeWhile (·.isDigit)
          if ds.isEmpty then ([], cs) else (c :: s :: ds, rest2.drop ds.length)
        else
          let ds := rest.takeWhile (·.isDigit)
          if ds.isEmpty then ([], cs) else (c :: ds, rest.drop ds.length)
      | [] => ([], cs)
    else ([], cs)
  | [] => ([], cs)

/-- Match of `(?:0|[1-9]\d*)(?:\.\d+)?(?:[eE][+-]?\d+)?` (the regex after the
optional sign) anchored at the head of `cs`. -/
def matchNumTail (cs : List Char) : Option (List Char) :=
  match matchIntPart cs with
  | none => none
  | some (ip, r1) =>
    let (fp, r2) := matchFrac r1
    let (ep, _) := matchExp r2
    some (ip ++ fp ++ ep)

/-- Match of the full number regex `-?(?:0|[1-9]\d*)(?:\.\d+)?(?:[eE][+-]?\d+)?`
anchored at the head of `cs` (leftmost-first, greedy semantics). -/
def matchNumberAt : List Char → Option (List Char)
  | [] => none
  | c :: rest =>
    if c = '-' then (matchNumTail rest).map (fun m => '-' :: m)
    else matchNumTail (c :: rest)

/-- Scan of `Regex::find_at` over the remaining input `cs`, whose first
character sits at absolute position `p`: try the anchored match at each
successive position. -/
def findNumberAux : List Char → Nat → Option (Nat × List Char)
  | cs, p =>
    match matchNumberAt cs with
    | some m => some (p, m)
    | none =>
      match cs with
      | [] => none
      | _ :: rest => findNumberAux rest (p + 1)

/-- Rust `Regex::find_at(input, start)`: the leftmost match of the number
regex beginning at or after `start`, together with its start position.
Note it is not anchored at `start`. -/
def findNumberFrom (input : List Char) (start : Nat) : Option (Nat × List Char) :=
  findNumberAux (input.drop start) start

/-- Rust `Tokenizer::tokenize_literal`: emit `literal` as a token of kind `ty`
when the input at `off` starts with it, otherwise an expected-literal error. -/
def tokenize_literal (input : List Char) (off : Nat) (literal : List Char)
    (ty : TokenType) : Except TokenizeError Token :=
  if literal.isPrefixOf (input.drop off) then
    .ok ⟨ty, literal, off⟩
  else
    .error ⟨off, "Expected literal \x60" ++ literal.asString ++ "\x60"⟩

/-- Rust `Tokenizer::tokenize_number`: `find_at` the number regex from `off`;
the token's value is whatever match is found (possibly starting after
`off`) while its offset field is the cursor `off`. -/
def tokenize_number (input : List Char) (off : Nat) : Except TokenizeError Token :=
  match findNumberFrom input off with
  | none => .error ⟨off, "Cannot parse number"⟩
  | some (_, m) => .ok ⟨.number, m, off⟩

/-- Rust `Tokenizer::tokenize_string`: scan for the next `"` after the opening
quote (escapes are not treated specially); the value spans both quotes.
No further quote gives an unterminated-string error at `off`. -/
def tokenize_string (input : List Char) (off : Nat) : Except TokenizeError Token :=
  match position (· = '"') (input.drop (off + 1)) with
  | none => .error ⟨off, "No string-terminating quote found"⟩
  | some qd => .ok ⟨.string, (input.drop off).take (qd + 2), off⟩

/-- Rust `Tokenizer::tokenize_whitespace`: the maximal run of ASCII whitespace
starting at `off`. -/
def tokenize_whitespace (input : List Char) (off : Nat) : Except TokenizeError Token :=
  .ok ⟨.whitespace, (input.drop off).takeWhile isAsciiWhitespace, off⟩

/-- One dispatch step of `Tokenizer::tokenize`'s loop: classify the character
`c` found at the cursor and produce the next token or a lexical error. -/
def nextToken (input : List Char) (off : Nat) (c : Char) : Except TokenizeError Token :=
  if c = ',' then tokenize_literal input off [','] .comma
  else if c = ':' then tokenize_literal input off [':'] .colon
  else if c = '[' then tokenize_literal input off ['['] .arrayStart
  else if c = ']' then tokenize_literal input off [']'] .arrayEnd
  else if c = lbrace then tokenize_literal input off [lbrace] .objectStart
  else if c = rbrace then tokenize_literal input off [rbrace] .objectEnd
  else if c = 'f' then tokenize_literal input off "false".data .falseLit
  else if c = 'n' then tokenize_literal input off "null".data .nullLit
  else if c = 't' then tokenize_literal input off "true".data .trueLit
  else if c = '"' then tokenize_string input off
  else if c = '-' then tokenize_number input off
  else if c.isDigit then tokenize_number input off
  else if isAsciiWhitespace c then tokenize_whitespace input off
  else .error ⟨off, "Unhandled character"⟩

/-- The loop of `Tokenizer::tokenize`: classify the character at the cursor,
append the produced token, advance the cursor by the token's length; stop
with the accumulated tokens when the cursor has left the input, or with
the first lexical error.  The structural `fuel` argument only bounds the
number of iterations; since every emitted token is nonempty
(`nextToken_ok_len`) the cursor strictly increases, so any fuel of at
least `input.length + 1 - off` is inert (`tokenizeLoop_fuel_irrel`), and
in particular its base case returning the accumulated tokens coincides
with the loop's exit. -/
def tokenizeLoop : Nat → List Char → Nat → List Token → Except TokenizeError (List Token)
  | 0, _, _, acc => .ok acc
  | fuel + 1, input, off, acc =>
    match input[off]? with
    | none => .ok acc
    | some c =>
      match nextToken input off c with
      | .error e => .error e
      | .ok t => tokenizeLoop fuel input (off + t.value.length) (acc ++ [t])

/-- Rust `tokenize` (src/tokenizer.rs): run the tokenizer over the whole input. -/
def tokenize (input : List Char) : Except TokenizeError (List Token) :=
  tokenizeLoop (input.length + 1) input 0 []

/-- Enum `Json` in src/parser.rs: the parsed value.  Rust's
`Object(HashMap<String, Json>)` is modelled as an association list whose
insert operation overwrites an existing binding, mirroring
`HashMap::insert` (last write wins; iteration order of a `HashMap` is
irrelevant). -/
inductive Json where
  | null
  | boolean (b : Bool)
  | integer (i : Int)
  | string (s : List Char)
  | array (xs : List Json)
  | object (m : List (List Char × Json))

/-- Struct `ParseError` in src/parser.rs: a token index and a message
(the later revision reports parse errors as token indices). -/
structure ParseError where
  offset : Nat
  message : String
deriving DecidableEq, Repr

/-- Outcome of one parser routine: a value plus the advanced cursor, a parse
error, or the Rust panic raised by the out-of-bounds slice
`value[1..len-1]`.  `nofuel` is an artefact of the fuel-based embedding of
the recursion; the entry point supplies enough fuel for it never to occur
on any input it is given, and no theorem below equates a result with it. -/
inductive PResult (α : Type) where
  | ok (a : α) (s : Nat)
  | err (e : ParseError)
  | panicked
  | nofuel

/-- Rust `i32::from_str` as used by `token.value.parse::<i32>()`: an optional
sign followed by one or more ASCII digits, with the value required to fit
in `[-2^31, 2^31 - 1]`; anything else (empty digits, stray characters,
overflow) is a parse failure. -/
def rustParseI32 (cs : List Char) : Option Int :=
  let (sgn, ds) : Int × List Char :=
    match cs with
    | '-' :: r => (-1, r)
    | '+' :: r => (1, r)
    | r => (1, r)
  if ds.isEmpty then none
  else if ds.all (·.isDigit) then
    let n : Nat := ds.foldl (fun a c => a * 10 + (c.toNat - 48)) 0
    let v : Int := sgn * n
    if -(2 ^ 31) ≤ v ∧ v ≤ 2 ^ 31 - 1 then some v else none
  else none

/-- `HashMap::insert` on the association-list model of an object: replace any
existing binding of the key (last write wins). -/
def objInsert (m : List (List Char × Json)) (k : List Char) (v : Json) :
    List (List Char × Json) :=
  m.filter (fun p => p.1 ≠ k) ++ [(k, v)]

/-- Association-list lookup, the observation on the object model. -/
def objLookup (m : List (List Char × Json)) (k : List Char) : Option Json :=
  match m.find? (fun p => p.1 = k) with
  | some p => some p.2
  | none => none

/-- Rust `Parser::parse_string_key` (src/parser.rs): the token at the cursor
must be a `String` token; its value with the two delimiting quotes
stripped (`value[1..len-1]`, verbatim, no escape decoding) is returned and
the cursor advances by one.  A value shorter than two characters makes
the Rust slice panic. -/
def parse_string_key (tokens : List Token) (s : Nat) : PResult (List Char) :=
  match tokens[s]? with
  | none => .err ⟨s, "Unexpected end of input"⟩
  | some t =>
    if t.type_ = .string then
      if 2 ≤ t.value.length then .ok ((t.value.drop 1).dropLast) (s + 1)
      else .panicked
    else .err ⟨s, "Cannot parse \x60" ++ t.value.asString ++ "\x60 as string"⟩

/-- Rust `Parser::parse_string` (src/parser.rs): `parse_string_key` wrapped
into a `Json::String`. -/
def parse_string (tokens : List Token) (s : Nat) : PResult Json :=
  match parse_string_key tokens s with
  | .ok v s1 => .ok (.string v) s1
  | .err e => .err e
  | .panicked => .panicked
  | .nofuel => .nofuel

mutual

/-- Rust `Parser::_parse` (src/parser.rs): dispatch on the token at the
cursor; leaves advance the cursor by one, `[` and `{` enter the container
routines.  The `number` constructor is written `Integer` in parser.rs. -/
def _parse : Nat → List Token → Nat → PResult Json
  | 0, _, _ => .nofuel
  | fuel + 1, tokens, s =>
    match tokens[s]? with
    | none => .err ⟨s, "Unexpected end of input"⟩
    | some t =>
      match t.type_ with
      | .nullLit => .ok .null (s + 1)
      | .trueLit => .ok (.boolean true) (s + 1)
      | .falseLit => .ok (.boolean false) (s + 1)
      | .number =>
        match rustParseI32 t.value with
        | some i => .ok (.integer i) (s + 1)
        | none => .err ⟨s, "Cannot parse \x60" ++ t.value.asString ++ "\x60 as integer"⟩
      | .string => parse_string tokens s
      | .arrayStart => parse_array fuel tokens s
      | .objectStart => parse_object fuel tokens s
      | _ => .err ⟨s, "Found unexpected token \x60" ++ t.value.asString ++ "\x60"⟩
termination_by structural fuel tokens s => fuel

/-- Rust `Parser::parse_array` (src/parser.rs): consume `[`, return the empty
array on an immediate `]`, otherwise run the element loop. -/
def parse_array : Nat → List Token → Nat → PResult Json
  | 0, _, _ => .nofuel
  | fuel + 1, tokens, s =>
    match tokens[s + 1]? with
    | none => .err ⟨s + 1, "Unexpected end of input"⟩
    | some t =>
      if t.type_ = .arrayEnd then .ok (.array []) (s + 2)
      else parse_array_items fuel tokens (s + 1) []
termination_by structural fuel tokens s => fuel

/-- The `loop` inside `Parser::parse_array`: parse an element, then a comma
continues the loop and `]` finishes the array; any other token (or
running out of tokens) is an error. -/
def parse_array_items : Nat → List Token → Nat → List Json → PResult Json
  | 0, _, _, _ => .nofuel
  | fuel + 1, tokens, s, acc =>
    match _parse fuel tokens s with
    | .ok item s1 =>
      match tokens[s1]? with
      | none => .err ⟨s1, "Unexpected end of input"⟩
      | some t =>
        match t.type_ with
        | .comma => parse_array_items fuel tokens (s1 + 1) (acc ++ [item])
        | .arrayEnd => .ok (.array (acc ++ [item])) (s1 + 1)
        | _ => .err ⟨s1, "Unexpected token \x60" ++ t.value.asString ++ "\x60 in array"⟩
    | .err e => .err e
    | .panicked => .panicked
    | .nofuel => .nofuel
termination_by structural fuel tokens s acc => fuel

/-- Rust `Parser::parse_object` (src/parser.rs): consume `{`, return the
empty object on an immediate `}`, otherwise run the member loop. -/
def parse_object : Nat → List Token → Nat → PResult Json
  | 0, _, _ => .nofuel
  | fuel + 1, tokens, s =>
    match tokens[s + 1]? with
    | none => .err ⟨s + 1, "Unexpected end of input"⟩
    | some t =>
      if t.type_ = .objectEnd then .ok (.object []) (s + 2)
      else parse_object_items fuel tokens (s + 1) []
termination_by structural fuel tokens s => fuel

/-- The `loop` inside `Parser::parse_object`: parse a string key, require
`:`, parse the value, insert the binding (overwriting a duplicate key),
then a comma continues the loop and `}` finishes the object. -/
def parse_object_items : Nat → List Token → Nat → List (List Char × Json) → PResult Json
  | 0, _, _, _ => .nofuel
  | fuel + 1, tokens, s, acc =>
    match parse_string_key tokens s with
    | .ok key s1 =>
      match tokens[s1]? with
      | none => .err ⟨s1, "Unexpected end of input"⟩
      | some t =>
        if t.type_ = .colon then
          match _parse fuel tokens (s1 + 1) with
          | .ok v s2 =>
            match tokens[s2]? with
            | none => .err ⟨s2, "Unexpected end of input"⟩
            | some t2 =>
              match t2.type_ with
              | .comma => parse_object_items fuel tokens (s2 + 1) (objInsert acc key v)
              | .objectEnd => .ok (.object (objInsert acc key v)) (s2 + 1)
              | _ => .err ⟨s2, "Unexpected token \x60" ++ t2.value.asString ++ "\x60 in object"⟩
          | .err e => .err e
          | .panicked => .panicked
          | .nofuel => .nofuel
        else .err ⟨s1, "Unexpected token \x60" ++ t.value.asString ++ "\x60 in object"⟩
    | .err e => .err e
    | .panicked => .panicked
    | .nofuel => .nofuel
termination_by structural fuel tokens s acc => fuel

end

/-- Final outcome of `Parser::parse`. -/
inductive ParseOutcome where
  | ok (j : Json)
  | err (e : ParseError)
  | panicked
  | nofuel

/-- Fuel supplied by the `parse` entry point: ample for the recursion, whose
depth is bounded by the number of retained tokens. -/
def parseFuel (tokens : List Token) : Nat :=
  3 * tokens.length + 3

/-- The `self.tokens.retain(|x| x.type_ != TokenType::Whitespace)` step of
`Parser::parse`: the whitespace-free view the parser works on. -/
def retained (ts : List Token) : List Token :=
  ts.filter (fun t => t.type_ ≠ TokenType.whitespace)

/-- Rust `parse` / `Parser::parse` (src/parser.rs): drop all whitespace
tokens, parse one value, and fail with `Unexpected extra input found` at
the current token index when tokens remain. -/
def parse (ts : List Token) : ParseOutcome :=
  match _parse (parseFuel (retained ts)) (retained ts) 0 with
  | .ok j k =>
    if k < (retained ts).length then .err ⟨k, "Unexpected extra input found"⟩
    else .ok j
  | .err e => .err e
  | .panicked => .panicked
  | .nofuel => .nofuel

/-- Concatenation of the verbatim substrings of a token sequence, the
observation of the spec's coverage invariant. -/
def tokensText (ts : List Token) : List Char :=
  (ts.map Token.value).flatten

/-- Well-formedness of a token as the parser needs it: a `String`-kind token
carries both delimiting quotes, so the quote-stripping slice is in
bounds. -/
def GoodTok (t : Token) : Prop :=
  t.type_ = TokenType.string →
    2 ≤ t.value.length ∧ t.value.head? = some '"' ∧ t.value.getLast? = some '"'


/-! Theorems. -/

theorem matchIntPart_ne_nil {cs ip r} (h : matchIntPart cs = some (ip, r)) :
    ip ≠ [] := by
  cases cs with
  | nil => simp [matchIntPart] at h
  | cons c rest =>
    by_cases h0 : c = '0'
    · simp [matchIntPart, h0] at h
      simp [← h.1]
    · by_cases hd : c.isDigit
      · simp [matchIntPart, h0, hd] at h
        simp [← h.1]
      · simp [matchIntPart, h0, hd] at h

theorem matchNumTail_ne_nil {cs m} (h : matchNumTail cs = some m) : m ≠ [] := by
  unfold matchNumTail at h
  cases hip : matchIntPart cs with
  | none => rw [hip] at h; cases h
  | some pr =>
    obtain ⟨ip, r1⟩ := pr
    rw [hip] at h
    injection h with h
    intro hnil
    rw [← h] at hnil
    have hne := matchIntPart_ne_nil hip
    simp only [List.append_eq_nil] at hnil
    exact hne hnil.1.1

theorem matchNumberAt_ne_nil {cs m} (h : matchNumberAt cs = some m) : m ≠ [] := by
  cases cs with
  | nil => simp [matchNumberAt] at h
  | cons c rest =>
    simp only [matchNumberAt] at h
    by_cases hm : c = '-'
    · rw [if_pos hm] at h
      cases ht : matchNumTail rest with
      | none => rw [ht] at h; cases h
      | some m' =>
        rw [ht] at h
        injection h with h
        rw [← h]
        simp
    · rw [if_neg hm] at h
      exact matchNumTail_ne_nil h

theorem findNumberAux_spec {cs : List Char} :
    ∀ {p q : Nat} {m : List Char}, findNumberAux cs p = some (q, m) →
    p ≤ q ∧ matchNumberAt (cs.drop (q - p)) = some m := by
  induction cs with
  | nil =>
    intro p q m h
    rw [findNumberAux] at h
    simp [matchNumberAt] at h
  | cons c rest ih =>
    intro p q m h
    rw [findNumberAux] at h
    cases hm : matchNumberAt (c :: rest) with
    | some m' =>
      rw [hm] at h
      simp only [Option.some.injEq, Prod.mk.injEq] at h
      obtain ⟨h1, h2⟩ := h
      subst h1
      subst h2
      simpa using hm
    | none =>
      rw [hm] at h
      obtain ⟨h1, h2⟩ := ih h
      refine ⟨by omega, ?_⟩
      have hq : q - p = (q - (p + 1)) + 1 := by omega
      rw [hq]
      simpa using h2

theorem findNumberFrom_spec {input : List Char} {start p : Nat} {m : List Char}
    (h : findNumberFrom input start = some (p, m)) :
    matchNumberAt (input.drop p) = some m ∧ start ≤ p := by
  unfold findNumberFrom at h
  obtain ⟨h1, h2⟩ := findNumberAux_spec h
  rw [List.drop_drop] at h2
  have heq : start + (p - start) = p := by omega
  rw [heq] at h2
  exact ⟨h2, h1⟩

theorem position_lt_length {p : Char → Bool} {cs : List Char} {i : Nat}
    (h : position p cs = some i) : i < cs.length := by
  induction cs generalizing i with
  | nil => simp [position] at h
  | cons c rest ih =>
    simp only [position] at h
    by_cases hp : p c
    · rw [if_pos hp] at h
      injection h with h
      simp only [List.length_cons]
      omega
    · rw [if_neg hp] at h
      cases hq : position p rest with
      | none => rw [hq] at h; cases h
      | some j =>
        rw [hq] at h
        simp only [Option.map_some'] at h
        injection h with h
        have hj := ih hq
        simp only [List.length_cons]
        omega

theorem tokenize_literal_ok {input off literal ty t}
    (h : tokenize_literal input off literal ty = .ok t) :
    t = ⟨ty, literal, off⟩ ∧ literal.isPrefixOf (input.drop off) = true := by
  unfold tokenize_literal at h
  split_ifs at h with hp
  injection h with h
  exact ⟨h.symm, hp⟩

theorem tokenize_number_ok {input off t}
    (h : tokenize_number input off = .ok t) :
    ∃ p, findNumberFrom input off = some (p, t.value) ∧
      t.type_ = .number ∧ t.offset = off := by
  unfold tokenize_number at h
  cases hf : findNumberFrom input off with
  | none => rw [hf] at h; cases h
  | some pm =>
    obtain ⟨p, m⟩ := pm
    rw [hf] at h
    injection h with h
    exact ⟨p, by rw [← h], by rw [← h], by rw [← h]⟩

theorem tokenize_string_ok {input off t}
    (h : tokenize_string input off = .ok t) :
    ∃ qd, position (· = '"') (input.drop (off + 1)) = some qd ∧
      t = ⟨.string, (input.drop off).take (qd + 2), off⟩ := by
  unfold tokenize_string at h
  cases hq : position (· = '"') (input.drop (off + 1)) with
  | none => rw [hq] at h; cases h
  | some qd =>
    rw [hq] at h
    injection h with h
    exact ⟨qd, rfl, h.symm⟩

theorem nextToken_ok_len {input : List Char} {off : Nat} {c : Char} {t : Token}
    (hc : input[off]? = some c) (h : nextToken input off c = .ok t) :
    1 ≤ t.value.length := by
  have hoff : off < input.length := by
    rcases List.getElem?_eq_some.mp hc with ⟨h1, _⟩
    exact h1
  have hdrop : input.drop off = c :: input.drop (off + 1) := by
    rw [List.drop_eq_getElem_cons hoff]
    rcases List.getElem?_eq_some.mp hc with ⟨h1, h2⟩
    rw [h2]
  unfold nextToken at h
  by_cases h1 : c = ','
  · rw [if_pos h1] at h; rw [(tokenize_literal_ok h).1]; simp
  rw [if_neg h1] at h
  by_cases h2 : c = ':'
  · rw [if_pos h2] at h; rw [(tokenize_literal_ok h).1]; simp
  rw [if_neg h2] at h
  by_cases h3 : c = '['
  · rw [if_pos h3] at h; rw [(tokenize_literal_ok h).1]; simp
  rw [if_neg h3] at h
  by_cases h4 : c = ']'
  · rw [if_pos h4] at h; rw [(tokenize_literal_ok h).1]; simp
  rw [if_neg h4] at h
  by_cases h5 : c = lbrace
  · rw [if_pos h5] at h; rw [(tokenize_literal_ok h).1]; simp
  rw [if_neg h5] at h
  by_cases h6 : c = rbrace
  · rw [if_pos h6] at h; rw [(tokenize_literal_ok h).1]; simp
  rw [if_neg h6] at h
  by_cases h7 : c = 'f'
  · rw [if_pos h7] at h; rw [(tokenize_literal_ok h).1]; simp
  rw [if_neg h7] at h
  by_cases h8 : c = 'n'
  · rw [if_pos h8] at h; rw [(tokenize_literal_ok h).1]; simp
  rw [if_neg h8] at h
  by_cases h9 : c = 't'
  · rw [if_pos h9] at h; rw [(tokenize_literal_ok h).1]; simp
  rw [if_neg h9] at h
  by_cases h10 : c = '"'
  · rw [if_pos h10] at h
    obtain ⟨qd, hq, rfl⟩ := tokenize_string_ok h
    simp only [List.length_take, hdrop, List.length_cons]
    omega
  rw [if_neg h10] at h
  by_cases h11 : c = '-'
  · rw [if_pos h11] at h
    obtain ⟨p, hf, _, _⟩ := tokenize_number_ok h
    exact List.length_pos.mpr (matchNumberAt_ne_nil (findNumberFrom_spec hf).1)
  rw [if_neg h11] at h
  by_cases h12 : c.isDigit
  · rw [if_pos h12] at h
    obtain ⟨p, hf, _, _⟩ := tokenize_number_ok h
    exact List.length_pos.mpr (matchNumberAt_ne_nil (findNumberFrom_spec hf).1)
  rw [if_neg h12] at h
  by_cases h13 : isAsciiWhitespace c
  · rw [if_pos h13] at h
    unfold tokenize_whitespace at h
    injection h with h
    rw [← h, hdrop, List.takeWhile_cons_of_pos h13]
    simp
  rw [if_neg h13] at h
  exact Except.noConfusion h

theorem tokenizeLoop_fuel_irrel :
    ∀ (fuel : Nat) (input : List Char) (off : Nat) (acc : List Token),
    input.length + 1 ≤ fuel + off →
    tokenizeLoop (fuel + 1) input off acc = tokenizeLoop fuel input off acc := by
  intro fuel
  induction fuel with
  | zero =>
    intro input off acc hle
    have hnone : input[off]? = none := by
      apply List.getElem?_eq_none
      omega
    simp [tokenizeLoop, hnone]
  | succ fuel ih =>
    intro input off acc hle
    conv_lhs => rw [tokenizeLoop]
    conv_rhs => rw [tokenizeLoop]
    cases hc : input[off]? with
    | none => rfl
    | some c =>
      dsimp only
      cases hn : nextToken input off c with
      | error e => rfl
      | ok t =>
        have hlen := nextToken_ok_len hc hn
        exact ih input (off + t.value.length) (acc ++ [t]) (by omega)

theorem position_found {p : Char → Bool} {cs : List Char} {i : Nat}
    (h : position p cs = some i) :
    ∃ c, cs[i]? = some c ∧ p c = true ∧
      ∀ (j : Nat), j < i → ∀ (cj : Char), cs[j]? = some cj → p cj = false := by
  induction cs generalizing i with
  | nil => simp [position] at h
  | cons c rest ih =>
    simp only [position] at h
    by_cases hp : p c
    · rw [if_pos hp] at h
      injection h with h
      subst h
      refine ⟨c, by simp, hp, ?_⟩
      intro j hj cj hcj
      omega
    · rw [if_neg hp] at h
      cases hq : position p rest with
      | none => rw [hq] at h; cases h
      | some j0 =>
        rw [hq] at h
        simp only [Option.map_some'] at h
        injection h with h
        subst h
        obtain ⟨c0, hc0, hpc0, hmin⟩ := ih hq
        refine ⟨c0, by simpa using hc0, hpc0, ?_⟩
        intro j hj cj hcj
        cases j with
        | zero =>
          simp at hcj
          rw [← hcj]
          simpa using hp
        | succ jj =>
          have hj' : jj < j0 := by omega
          exact hmin jj hj' cj (by simpa using hcj)

theorem position_none {p : Char → Bool} {cs : List Char}
    (h : position p cs = none) :
    ∀ (j : Nat) (cj : Char), cs[j]? = some cj → p cj = false := by
  induction cs with
  | nil => intro j cj hcj; simp at hcj
  | cons c rest ih =>
    simp only [position] at h
    by_cases hp : p c
    · rw [if_pos hp] at h; cases h
    · rw [if_neg hp] at h
      intro j cj hcj
      cases j with
      | zero =>
        simp at hcj
        rw [← hcj]
        simpa using hp
      | succ jj =>
        have hrest : position p rest = none := by
          cases hq : position p rest with
          | none => rfl
          | some x => rw [hq] at h; simp at h
        exact ih hrest jj cj (by simpa using hcj)

theorem tokenize_string_shape {input : List Char} {off : Nat} {t : Token}
    (hq : input[off]? = some '"') (h : tokenize_string input off = .ok t) :
    t.type_ = TokenType.string ∧ t.offset = off ∧ 2 ≤ t.value.length ∧
    t.value = (input.drop off).take t.value.length ∧
    t.value.head? = some '"' ∧ t.value.getLast? = some '"' ∧
    ∀ j, 1 ≤ j → j + 1 < t.value.length → t.value[j]? ≠ some '"' := by
  obtain ⟨qd, hpos, rfl⟩ := tokenize_string_ok h
  have hoff : off < input.length := (List.getElem?_eq_some.mp hq).1
  have hdrop : input.drop off = '"' :: input.drop (off + 1) := by
    rw [List.drop_eq_getElem_cons hoff]
    rcases List.getElem?_eq_some.mp hq with ⟨h1, h2⟩
    rw [h2]
  obtain ⟨c0, hc0, hpc0, hmin⟩ := position_found hpos
  have hc0' : c0 = '"' := by simpa using hpc0
  subst hc0'
  have hqdlt : qd < (input.drop (off + 1)).length := (List.getElem?_eq_some.mp hc0).1
  have hlen_drop : (input.drop (off + 1)).length = input.length - (off + 1) :=
    List.length_drop _ _
  have hvlen : ((input.drop off).take (qd + 2)).length = qd + 2 := by
    rw [List.length_take, List.length_drop]
    omega
  refine ⟨rfl, rfl, ?_, ?_, ?_, ?_, ?_⟩
  · show 2 ≤ ((input.drop off).take (qd + 2)).length
    rw [hvlen]
    omega
  · show (input.drop off).take (qd + 2) =
      (input.drop off).take ((input.drop off).take (qd + 2)).length
    rw [hvlen]
  · show ((input.drop off).take (qd + 2)).head? = some '"'
    rw [hdrop, List.take_succ_cons]
    rfl
  · show ((input.drop off).take (qd + 2)).getLast? = some '"'
    rw [List.getLast?_eq_getElem?, hvlen]
    have h1 : ((input.drop off).take (qd + 2))[qd + 1]? = (input.drop off)[qd + 1]? := by
      rw [List.getElem?_take, if_pos (by omega)]
    rw [show qd + 2 - 1 = qd + 1 from rfl, h1, hdrop]
    simpa using hc0
  · intro j h1j hjlt hcon
    rw [hvlen] at hjlt
    have hj' : ((input.drop off).take (qd + 2))[j]? = (input.drop off)[j]? := by
      rw [List.getElem?_take, if_pos (by omega)]
    rw [hj', hdrop] at hcon
    obtain ⟨jj, rfl⟩ : ∃ jj, j = jj + 1 := ⟨j - 1, by omega⟩
    have hcon' : (input.drop (off + 1))[jj]? = some '"' := by simpa using hcon
    have hfalse := hmin jj (by omega) '"' hcon'
    simp at hfalse

/-- C3 counterexample: the scan does not skip escaped quotes.  On the input
`"a\"b"` the character at index 3 is a `"` preceded by a backslash; the
claim says the token value runs to the next unescaped `"` (index 5,
i.e. the whole input), but the code ends the token at the escaped quote,
emitting the four-character value `"a\"`. -/
theorem tokenize_string_escaped_quote_counterexample :
    tokenize_string ['"', 'a', '\\', '"', 'b', '"'] 0 =
      .ok ⟨TokenType.string, ['"', 'a', '\\', '"'], 0⟩ ∧
    (['"', 'a', '\\', '"', 'b', '"'] : List Char)[2]? = some '\\' ∧
    (['"', 'a', '\\', '"'] : List Char) ≠ ['"', 'a', '\\', '"', 'b', '"'] :=
  ⟨rfl, rfl, by decide⟩

/-- C3 (amended): when the cursor is at a `"`, the emitted String token
starts at the cursor, carries at least the two delimiting quotes, ends
at the first later `"` of any kind — escaped or not — with no `"`
strictly inside, and if no later `"` exists at all, tokenization fails
with the unterminated-string error at the offset of the opening quote. -/
theorem tokenize_string_scan_spec (input : List Char) (off : Nat)
    (hq : input[off]? = some '"') :
    (∃ t, tokenize_string input off = .ok t ∧ t.type_ = TokenType.string ∧
      t.offset = off ∧ 2 ≤ t.value.length ∧
      t.value = (input.drop off).take t.value.length ∧
      t.value.head? = some '"' ∧ t.value.getLast? = some '"' ∧
      ∀ j, 1 ≤ j → j + 1 < t.value.length → t.value[j]? ≠ some '"') ∨
    (tokenize_string input off = .error ⟨off, "No string-terminating quote found"⟩ ∧
      ∀ j, off + 1 ≤ j → input[j]? ≠ some '"') := by
  cases hpos : position (· = '"') (input.drop (off + 1)) with
  | some qd =>
    left
    have hstep : tokenize_string input off =
        .ok ⟨TokenType.string, (input.drop off).take (qd + 2), off⟩ := by
      unfold tokenize_string
      rw [hpos]
    exact ⟨_, hstep, tokenize_string_shape hq hstep⟩
  | none =>
    right
    constructor
    · unfold tokenize_string
      rw [hpos]
    · intro j hj hcon
      have hj' : (input.drop (off + 1))[j - (off + 1)]? = some '"' := by
        rw [List.getElem?_drop]
        rw [show off + 1 + (j - (off + 1)) = j by omega]
        exact hcon
      have := position_none hpos (j - (off + 1)) '"' hj'
      simp at this

theorem tokenize_string_scan_spec_witness :
    (['"', 'a', '"'] : List Char)[0]? = some '"' ∧
    ((∃ t, tokenize_string ['"', 'a', '"'] 0 = .ok t ∧ t.type_ = TokenType.string ∧
      t.offset = 0 ∧ 2 ≤ t.value.length ∧
      t.value = ((['"', 'a', '"'] : List Char).drop 0).take t.value.length ∧
      t.value.head? = some '"' ∧ t.value.getLast? = some '"' ∧
      ∀ j, 1 ≤ j → j + 1 < t.value.length → t.value[j]? ≠ some '"') ∨
    (tokenize_string ['"', 'a', '"'] 0 =
        .error ⟨0, "No string-terminating quote found"⟩ ∧
      ∀ j, 0 + 1 ≤ j → (['"', 'a', '"'] : List Char)[j]? ≠ some '"')) :=
  ⟨rfl, tokenize_string_scan_spec ['"', 'a', '"'] 0 rfl⟩

theorem objLookup_cons_ne {p : List Char × Json} {m : List (List Char × Json)}
    {k : List Char} (hne : ¬ p.1 = k) :
    objLookup (p :: m) k = objLookup m k := by
  unfold objLookup
  rw [List.find?_cons_of_neg _ (by simp [hne])]

theorem objLookup_objInsert (m : List (List Char × Json)) (k : List Char) (v : Json) :
    objLookup (objInsert m k v) k = some v := by
  induction m with
  | nil => simp [objInsert, objLookup, List.find?]
  | cons p m ih =>
    by_cases hk : p.1 = k
    · have heq : objInsert (p :: m) k v = objInsert m k v := by
        unfold objInsert
        rw [List.filter_cons_of_neg (by simp [hk])]
      rw [heq]
      exact ih
    · have heq : objInsert (p :: m) k v = p :: objInsert m k v := by
        unfold objInsert
        rw [List.filter_cons_of_pos (by simp [hk])]
        rfl
      rw [heq, objLookup_cons_ne hk]
      exact ih

/-- C1: the coverage invariant fails on the code.  On the ASCII input `- 5`
the tokenizer succeeds — `Regex::find_at` finds the number match `5` at
position 2 although the cursor is at the non-matching position 0 — yet
the concatenation of the emitted token values is `5 5`, not the input,
refuting the claim that every successfully tokenized input is reproduced
by concatenating its tokens' values. -/
theorem tokenize_coverage_violated_on_dash_space :
    tokenize ['-', ' ', '5'] =
      .ok [⟨.number, ['5'], 0⟩, ⟨.whitespace, [' '], 1⟩, ⟨.number, ['5'], 2⟩] ∧
    tokensText [⟨.number, ['5'], 0⟩, ⟨.whitespace, [' '], 1⟩, ⟨.number, ['5'], 2⟩] ≠
      ['-', ' ', '5'] ∧
    ¬ ∀ (input : List Char) (ts : List Token),
        tokenize input = .ok ts → tokensText ts = input := by
  refine ⟨rfl, by decide, fun hall => ?_⟩
  exact absurd (hall ['-', ' ', '5'] _ rfl) (by decide)

/-- C2: number tokenization is not anchored at the cursor.  On `-,1` the text
at the cursor matches the number grammar nowhere (`matchNumberAt` is
`none` there), so the claim requires a malformed-number error at offset
0; instead `tokenize_number` emits the displaced match `1` found at
position 2 as a token whose offset field still says 0, and the whole
tokenization succeeds. -/
theorem tokenize_number_displaced_match_on_dash_comma_one :
    matchNumberAt ['-', ',', '1'] = none ∧
    tokenize_number ['-', ',', '1'] 0 = .ok ⟨.number, ['1'], 0⟩ ∧
    tokenize_number ['-', ',', '1'] 0 ≠ .error ⟨0, "Cannot parse number"⟩ ∧
    tokenize ['-', ',', '1'] =
      .ok [⟨.number, ['1'], 0⟩, ⟨.comma, [','], 1⟩, ⟨.number, ['1'], 2⟩] := by
  refine ⟨rfl, rfl, ?_, rfl⟩
  intro hcon
  rw [show tokenize_number ['-', ',', '1'] 0 = Except.ok ⟨.number, ['1'], 0⟩ from rfl] at hcon
  exact Except.noConfusion hcon

/-- C4: when a complete top-level value has been parsed and non-whitespace
tokens remain, `parse` fails with `Unexpected extra input found`
positioned at the index of the first leftover token. -/
theorem parse_unexpected_extra_input (ts : List Token) (j : Json) (k : Nat)
    (h : _parse (parseFuel (retained ts)) (retained ts) 0 = .ok j k)
    (hk : k < (retained ts).length) :
    parse ts = .err ⟨k, "Unexpected extra input found"⟩ := by
  unfold parse
  rw [h]
  dsimp only
  rw [if_pos hk]

theorem parse_unexpected_extra_input_witness :
    _parse (parseFuel (retained [⟨.trueLit, ['t', 'r', 'u', 'e'], 0⟩,
        ⟨.falseLit, ['f', 'a', 'l', 's', 'e'], 4⟩]))
      (retained [⟨.trueLit, ['t', 'r', 'u', 'e'], 0⟩,
        ⟨.falseLit, ['f', 'a', 'l', 's', 'e'], 4⟩]) 0 = .ok (.boolean true) 1 ∧
    tokenize "truefalse".data = .ok [⟨.trueLit, ['t', 'r', 'u', 'e'], 0⟩,
        ⟨.falseLit, ['f', 'a', 'l', 's', 'e'], 4⟩] ∧
    parse [⟨.trueLit, ['t', 'r', 'u', 'e'], 0⟩, ⟨.falseLit, ['f', 'a', 'l', 's', 'e'], 4⟩] =
      .err ⟨1, "Unexpected extra input found"⟩ :=
  ⟨rfl, rfl, parse_unexpected_extra_input _ _ _ rfl (by decide)⟩

/-- C5: a `Number` token at a value position is converted by `i32` parsing;
success yields `Json::Integer` and advances the cursor by one, failure
(overflow or text outside the `i32` domain) yields the
cannot-parse-as-number error (spelled `Cannot parse `...` as integer` in
the code) carrying the offending token text. -/
theorem parse_number_token_spec (fuel : Nat) (tokens : List Token) (s : Nat) (t : Token)
    (ht : tokens[s]? = some t) (hty : t.type_ = TokenType.number) :
    (∀ i, rustParseI32 t.value = some i →
        _parse (fuel + 1) tokens s = .ok (.integer i) (s + 1)) ∧
    (rustParseI32 t.value = none →
        _parse (fuel + 1) tokens s =
          .err ⟨s, "Cannot parse \x60" ++ t.value.asString ++ "\x60 as integer"⟩) := by
  constructor
  · intro i hi
    rw [_parse, ht]
    dsimp only
    rw [hty]
    dsimp only
    rw [hi]
  · intro hi
    rw [_parse, ht]
    dsimp only
    rw [hty]
    dsimp only
    rw [hi]

theorem parse_number_token_spec_witness :
    _parse 1 [⟨.number, ['5'], 0⟩] 0 = .ok (.integer 5) 1 ∧
    _parse 1 [⟨.number, ['1', '.', '5'], 0⟩] 0 =
      .err ⟨0, "Cannot parse \x601.5\x60 as integer"⟩ ∧
    _parse 1 [⟨.number, "2222222222222222222222222".data, 0⟩] 0 =
      .err ⟨0, "Cannot parse \x602222222222222222222222222\x60 as integer"⟩ :=
  ⟨(parse_number_token_spec 0 [⟨.number, ['5'], 0⟩] 0 ⟨.number, ['5'], 0⟩ rfl rfl).1 5 rfl,
   (parse_number_token_spec 0 [⟨.number, ['1', '.', '5'], 0⟩] 0
      ⟨.number, ['1', '.', '5'], 0⟩ rfl rfl).2 rfl,
   (parse_number_token_spec 0 [⟨.number, "2222222222222222222222222".data, 0⟩] 0
      ⟨.number, "2222222222222222222222222".data, 0⟩ rfl rfl).2 rfl⟩

/-- C6: duplicate object keys are resolved last-write-wins: the concrete
input from the spec parses to a mapping binding `a` to `2`, and the
insert operation used by `parse_object` always makes the key observe the
newly written value. -/
theorem parse_duplicate_keys_last_write_wins :
    (∃ ts, tokenize [lbrace, '"', 'a', '"', ':', '1', ',', '"', 'a', '"', ':', '2', rbrace] =
        .ok ts ∧
      parse ts = ParseOutcome.ok (Json.object [(['a'], Json.integer 2)])) ∧
    ∀ (m : List (List Char × Json)) (k : List Char) (v : Json),
      objLookup (objInsert m k v) k = some v :=
  ⟨⟨_, rfl, rfl⟩, objLookup_objInsert⟩

/-- C7: a token sequence with no non-whitespace tokens (in particular the
empty one) makes `parse` fail with `Unexpected end of input` at index 0. -/
theorem parse_whitespace_only_unexpected_end (ts : List Token)
    (h : ∀ t ∈ ts, t.type_ = TokenType.whitespace) :
    parse ts = .err ⟨0, "Unexpected end of input"⟩ := by
  have hret : retained ts = [] := by
    unfold retained
    rw [List.filter_eq_nil_iff]
    intro t htm
    simp [h t htm]
  unfold parse
  rw [hret]
  rfl

theorem parse_whitespace_only_unexpected_end_witness :
    (∀ t ∈ [Token.mk .whitespace [' '] 0], t.type_ = TokenType.whitespace) ∧
    parse [Token.mk .whitespace [' '] 0] = .err ⟨0, "Unexpected end of input"⟩ ∧
    parse [] = .err ⟨0, "Unexpected end of input"⟩ :=
  ⟨by decide, parse_whitespace_only_unexpected_end _ (by decide),
   parse_whitespace_only_unexpected_end [] (by decide)⟩

/-- C8: `tokenize` and `parse` are pure functions of their input in this
embedding, exactly as in the Rust code, whose routines touch no state
beyond their arguments; two invocations on the same input are therefore
identical. -/
theorem tokenize_parse_deterministic :
    ∀ (input₁ input₂ : List Char) (ts₁ ts₂ : List Token),
      input₁ = input₂ → ts₁ = ts₂ →
      tokenize input₁ = tokenize input₂ ∧ parse ts₁ = parse ts₂ := by
  intro input₁ input₂ ts₁ ts₂ h1 h2
  rw [h1, h2]
  exact ⟨rfl, rfl⟩

theorem tokenize_parse_deterministic_witness :
    tokenize ['1'] = tokenize ['1'] ∧ parse [] = parse [] :=
  tokenize_parse_deterministic ['1'] ['1'] [] [] rfl rfl

/-- C9: every token the tokenizer's dispatch step emits has a nonempty value,
so the cursor `off + t.value.length` strictly increases on every
iteration of the tokenize loop, which therefore terminates on every
finite input (the loop in this embedding is total by construction, with
its iteration count bounded through exactly this fact, see
`tokenizeLoop_fuel_irrel`). -/
theorem tokenize_progress_token_nonempty (input : List Char) (off : Nat) (c : Char)
    (t : Token) (hc : input[off]? = some c) (hn : nextToken input off c = .ok t) :
    1 ≤ t.value.length ∧ off < off + t.value.length := by
  have hlen := nextToken_ok_len hc hn
  exact ⟨hlen, by omega⟩

theorem tokenize_progress_token_nonempty_witness :
    1 ≤ (Token.mk .number ['5'] 0).value.length ∧
    0 < 0 + (Token.mk .number ['5'] 0).value.length :=
  tokenize_progress_token_nonempty ['5'] 0 '5' (Token.mk .number ['5'] 0) rfl rfl

theorem nextToken_good {input : List Char} {off : Nat} {c : Char} {t : Token}
    (hc : input[off]? = some c) (h : nextToken input off c = .ok t) :
    GoodTok t := by
  unfold nextToken at h
  by_cases h1 : c = ','
  · rw [if_pos h1] at h; rw [(tokenize_literal_ok h).1]; intro hty; simp at hty
  rw [if_neg h1] at h
  by_cases h2 : c = ':'
  · rw [if_pos h2] at h; rw [(tokenize_literal_ok h).1]; intro hty; simp at hty
  rw [if_neg h2] at h
  by_cases h3 : c = '['
  · rw [if_pos h3] at h; rw [(tokenize_literal_ok h).1]; intro hty; simp at hty
  rw [if_neg h3] at h
  by_cases h4 : c = ']'
  · rw [if_pos h4] at h; rw [(tokenize_literal_ok h).1]; intro hty; simp at hty
  rw [if_neg h4] at h
  by_cases h5 : c = lbrace
  · rw [if_pos h5] at h; rw [(tokenize_literal_ok h).1]; intro hty; simp at hty
  rw [if_neg h5] at h
  by_cases h6 : c = rbrace
  · rw [if_pos h6] at h; rw [(tokenize_literal_ok h).1]; intro hty; simp at hty
  rw [if_neg h6] at h
  by_cases h7 : c = 'f'
  · rw [if_pos h7] at h; rw [(tokenize_literal_ok h).1]; intro hty; simp at hty
  rw [if_neg h7] at h
  by_cases h8 : c = 'n'
  · rw [if_pos h8] at h; rw [(tokenize_literal_ok h).1]; intro hty; simp at hty
  rw [if_neg h8] at h
  by_cases h9 : c = 't'
  · rw [if_pos h9] at h; rw [(tokenize_literal_ok h).1]; intro hty; simp at hty
  rw [if_neg h9] at h
  by_cases h10 : c = '"'
  · rw [if_pos h10] at h
    intro hty
    obtain ⟨_, _, hlen, _, hhead, hlast, _⟩ := tokenize_string_shape (h10 ▸ hc) h
    exact ⟨hlen, hhead, hlast⟩
  rw [if_neg h10] at h
  by_cases h11 : c = '-'
  · rw [if_pos h11] at h
    obtain ⟨p, hf, hty2, _⟩ := tokenize_number_ok h
    intro hty
    rw [hty2] at hty
    simp at hty
  rw [if_neg h11] at h
  by_cases h12 : c.isDigit
  · rw [if_pos h12] at h
    obtain ⟨p, hf, hty2, _⟩ := tokenize_number_ok h
    intro hty
    rw [hty2] at hty
    simp at hty
  rw [if_neg h12] at h
  by_cases h13 : isAsciiWhitespace c
  · rw [if_pos h13] at h
    unfold tokenize_whitespace at h
    injection h with h
    intro hty
    rw [← h] at hty
    simp at hty
  rw [if_neg h13] at h
  exact Except.noConfusion h

theorem tokenizeLoop_good :
    ∀ (fuel : Nat) (input : List Char) (off : Nat) (acc ts : List Token),
    (∀ t ∈ acc, GoodTok t) →
    tokenizeLoop fuel input off acc = .ok ts →
    ∀ t ∈ ts, GoodTok t := by
  intro fuel
  induction fuel with
  | zero =>
    intro input off acc ts hacc h
    rw [tokenizeLoop] at h
    injection h with h
    subst h
    exact hacc
  | succ fuel ih =>
    intro input off acc ts hacc h
    rw [tokenizeLoop] at h
    cases hc : input[off]? with
    | none =>
      rw [hc] at h
      injection h with h
      subst h
      exact hacc
    | some c =>
      rw [hc] at h
      dsimp only at h
      cases hn : nextToken input off c with
      | error e => rw [hn] at h; cases h
      | ok t0 =>
        rw [hn] at h
        dsimp only at h
        refine ih input (off + t0.value.length) (acc ++ [t0]) ts ?_ h
        intro x hx
        rcases List.mem_append.mp hx with h1 | h1
        · exact hacc x h1
        · have hx0 : x = t0 := by simpa using h1
          subst hx0
          exact nextToken_good hc hn

theorem tokenize_good {input : List Char} {ts : List Token}
    (h : tokenize input = .ok ts) : ∀ t ∈ ts, GoodTok t :=
  tokenizeLoop_good _ input 0 [] ts (by intro t ht; simp at ht) h

theorem parse_string_key_no_panic {tokens : List Token} {s : Nat}
    (hg : ∀ t ∈ tokens, GoodTok t) : parse_string_key tokens s ≠ .panicked := by
  unfold parse_string_key
  cases ht : tokens[s]? with
  | none => intro hcon; cases hcon
  | some t =>
    dsimp only
    by_cases hty : t.type_ = TokenType.string
    · rw [if_pos hty]
      have hmem : t ∈ tokens := List.getElem?_mem ht
      have hlen := (hg t hmem hty).1
      rw [if_pos hlen]
      intro hcon
      cases hcon
    · rw [if_neg hty]
      intro hcon
      cases hcon

theorem parse_string_no_panic {tokens : List Token} {s : Nat}
    (hg : ∀ t ∈ tokens, GoodTok t) : parse_string tokens s ≠ .panicked := by
  unfold parse_string
  cases hk : parse_string_key tokens s with
  | ok v s1 => intro hcon; cases hcon
  | err e => intro hcon; cases hcon
  | panicked => exact absurd hk (parse_string_key_no_panic hg)
  | nofuel => intro hcon; cases hcon

theorem parser_no_panic :
    ∀ (fuel : Nat) (tokens : List Token), (∀ t ∈ tokens, GoodTok t) →
    ∀ (s : Nat) (acc : List Json) (accO : List (List Char × Json)),
      _parse fuel tokens s ≠ .panicked ∧
      parse_array fuel tokens s ≠ .panicked ∧
      parse_array_items fuel tokens s acc ≠ .panicked ∧
      parse_object fuel tokens s ≠ .panicked ∧
      parse_object_items fuel tokens s accO ≠ .panicked := by
  intro fuel
  induction fuel with
  | zero =>
    intro tokens hg s acc accO
    refine ⟨?_, ?_, ?_, ?_, ?_⟩
    · intro hcon; rw [_parse] at hcon; cases hcon
    · intro hcon; rw [parse_array] at hcon; cases hcon
    · intro hcon; rw [parse_array_items] at hcon; cases hcon
    · intro hcon; rw [parse_object] at hcon; cases hcon
    · intro hcon; rw [parse_object_items] at hcon; cases hcon
  | succ fuel ih =>
    intro tokens hg s acc accO
    refine ⟨?_, ?_, ?_, ?_, ?_⟩
    · rw [_parse]
      cases ht : tokens[s]? with
      | none => intro hcon; cases hcon
      | some t =>
        dsimp only
        cases hty : t.type_ with
        | nullLit => intro hcon; cases hcon
        | trueLit => intro hcon; cases hcon
        | falseLit => intro hcon; cases hcon
        | number =>
          cases hi : rustParseI32 t.value with
          | some i => intro hcon; cases hcon
          | none => intro hcon; cases hcon
        | string => exact parse_string_no_panic hg
        | arrayStart => exact (ih tokens hg s acc accO).2.1
        | objectStart => exact (ih tokens hg s acc accO).2.2.2.1
        | arrayEnd => intro hcon; cases hcon
        | objectEnd => intro hcon; cases hcon
        | colon => intro hcon; cases hcon
        | comma => intro hcon; cases hcon
        | whitespace => intro hcon; cases hcon
    · rw [parse_array]
      cases ht : tokens[s + 1]? with
      | none => intro hcon; cases hcon
      | some t =>
        dsimp only
        by_cases hty : t.type_ = TokenType.arrayEnd
        · rw [if_pos hty]; intro hcon; cases hcon
        · rw [if_neg hty]
          exact (ih tokens hg (s + 1) [] accO).2.2.1
    · rw [parse_array_items]
      cases hp : _parse fuel tokens s with
      | ok item s1 =>
        dsimp only
        cases ht : tokens[s1]? with
        | none => intro hcon; cases hcon
        | some t =>
          dsimp only
          cases hty : t.type_ with
          | comma => exact (ih tokens hg (s1 + 1) (acc ++ [item]) accO).2.2.1
          | arrayEnd => intro hcon; cases hcon
          | arrayStart => intro hcon; cases hcon
          | colon => intro hcon; cases hcon
          | falseLit => intro hcon; cases hcon
          | number => intro hcon; cases hcon
          | nullLit => intro hcon; cases hcon
          | objectEnd => intro hcon; cases hcon
          | objectStart => intro hcon; cases hcon
          | string => intro hcon; cases hcon
          | trueLit => intro hcon; cases hcon
          | whitespace => intro hcon; cases hcon
      | err e => intro hcon; cases hcon
      | panicked => exact absurd hp (ih tokens hg s acc accO).1
      | nofuel => intro hcon; cases hcon
    · rw [parse_object]
      cases ht : tokens[s + 1]? with
      | none => intro hcon; cases hcon
      | some t =>
        dsimp only
        by_cases hty : t.type_ = TokenType.objectEnd
        · rw [if_pos hty]; intro hcon; cases hcon
        · rw [if_neg hty]
          exact (ih tokens hg (s + 1) acc []).2.2.2.2
    · rw [parse_object_items]
      cases hk : parse_string_key tokens s with
      | ok key s1 =>
        dsimp only
        cases ht : tokens[s1]? with
        | none => intro hcon; cases hcon
        | some t =>
          dsimp only
          by_cases hty : t.type_ = TokenType.colon
          · rw [if_pos hty]
            cases hv : _parse fuel tokens (s1 + 1) with
            | ok v s2 =>
              dsimp only
              cases ht2 : tokens[s2]? with
              | none => intro hcon; cases hcon
              | some t2 =>
                dsimp only
                cases hty2 : t2.type_ with
                | comma => exact (ih tokens hg (s2 + 1) acc (objInsert accO key v)).2.2.2.2
                | objectEnd => intro hcon; cases hcon
                | arrayEnd => intro hcon; cases hcon
                | arrayStart => intro hcon; cases hcon
                | colon => intro hcon; cases hcon
                | falseLit => intro hcon; cases hcon
                | number => intro hcon; cases hcon
                | nullLit => intro hcon; cases hcon
                | objectStart => intro hcon; cases hcon
                | string => intro hcon; cases hcon
                | trueLit => intro hcon; cases hcon
                | whitespace => intro hcon; cases hcon
            | err e => intro hcon; cases hcon
            | panicked => exact absurd hv (ih tokens hg (s1 + 1) acc accO).1
            | nofuel => intro hcon; cases hcon
          · rw [if_neg hty]
            intro hcon; cases hcon
      | err e => intro hcon; cases hcon
      | panicked => exact absurd hk (parse_string_key_no_panic hg)
      | nofuel => intro hcon; cases hcon

/-- C10: on ASCII input every String token of a successful tokenization
carries at least its two delimiting quotes, one at each end; hence the
quote-stripping slice `value[1..len-1]` in `parse_string_key` is in
bounds and `parse` never reaches the panic outcome on a token sequence
produced by `tokenize`. -/
theorem tokenize_string_tokens_wellformed_and_parse_no_panic
    (input : List Char) (ts : List Token)
    (hascii : ∀ c ∈ input, c.toNat < 128)
    (h : tokenize input = .ok ts) :
    (∀ t ∈ ts, t.type_ = TokenType.string →
       2 ≤ t.value.length ∧ t.value.head? = some '"' ∧ t.value.getLast? = some '"') ∧
    parse ts ≠ ParseOutcome.panicked := by
  have hgood : ∀ t ∈ ts, GoodTok t := tokenize_good h
  refine ⟨hgood, ?_⟩
  have hret : ∀ t ∈ retained ts, GoodTok t := by
    intro t htm
    exact hgood t (List.mem_of_mem_filter htm)
  unfold parse
  cases hp : _parse (parseFuel (retained ts)) (retained ts) 0 with
  | ok j k =>
    dsimp only
    by_cases hk : k < (retained ts).length
    · rw [if_pos hk]; intro hcon; cases hcon
    · rw [if_neg hk]; intro hcon; cases hcon
  | err e => intro hcon; cases hcon
  | panicked =>
    exact absurd hp (parser_no_panic (parseFuel (retained ts)) (retained ts) hret 0 [] []).1
  | nofuel => intro hcon; cases hcon

theorem tokenize_string_tokens_wellformed_and_parse_no_panic_witness :
    (∀ c ∈ (['"', 'a', '"'] : List Char), c.toNat < 128) ∧
    tokenize ['"', 'a', '"'] = .ok [⟨.string, ['"', 'a', '"'], 0⟩] ∧
    ((∀ t ∈ [Token.mk .string ['"', 'a', '"'] 0], t.type_ = TokenType.string →
       2 ≤ t.value.length ∧ t.value.head? = some '"' ∧ t.value.getLast? = some '"') ∧
     parse [Token.mk .string ['"', 'a', '"'] 0] ≠ ParseOutcome.panicked) :=
  ⟨by decide, rfl,
   tokenize_string_tokens_wellformed_and_parse_no_panic ['"', 'a', '"']
     [Token.mk .string ['"', 'a', '"'] 0] (by decide) rfl⟩

end RustJson
